import Mathlib

/-!
Verification development for the `ecdsa-private-key-recovery` repository
(`ecdsa_key_recovery/__init__.py`): EcDSA/DSA nonce-reuse private key
recovery.

The Python source is shallowly embedded below.  Machine integers do not
occur: Python works with arbitrary-precision integers, modelled as `Int`
(`%` is Python's `%` on a positive modulus, i.e. `Int.emod`; the local
`inverse` helper of the source uses Python floor semantics `//` / `%`
also at negative moduli, modelled by `Int.fdiv` / `Int.fmod`).  Fallible
code returns `Except Err`.  The spec's error taxonomy is used for the
Python exceptions:
  * `validationError`  — `ValueError` from the input loaders and the
    `assert`-based verification gate / recovery-pair preconditions;
  * `domainError`      — `ValueError` from a modular inverse on
    non-coprime inputs;
  * `recoveryFailure`  — the `assert False` ending the exhausted ECDSA
    candidate search;
  * `typeError`        — Python `TypeError`/`struct.error` style failures
    (e.g. `bytes_to_long` applied to a `str`, or taking the x-coordinate
    of the point at infinity);
  * `attributeError`   — access to a missing attribute (e.g. `.tuple` on
    a duck-typed signature object, `.generator` on a raw pubkey object);
  * `malformedPoint`   — `SigningKey.from_secret_exponent` rejecting a
    secret exponent outside `[1, order)`;
  * `runtimeError`     — the signer redrawing a nonce that produced
    `r = 0` or `s = 0` (only in the modelled honest signer).
-/

/-- Spec error taxonomy (spec section 7) covering the Python exceptions of
the source. -/
inductive Err where
  | validationError
  | domainError
  | recoveryFailure
  | typeError
  | attributeError
  | malformedPoint
  | runtimeError
deriving DecidableEq, Repr

/-! ## Input shapes

`RecoverableSignature.__init__` receives duck-typed arguments; the
possible shapes are modelled as sum types. -/

/-- The possible shapes of the `sig` argument of
`RecoverableSignature.__init__`:
  * `tup xs` — a Python tuple (of any arity; the source only tests
    `isinstance(sig, tuple)`);
  * `sigParam r s` — a `SignatureParameter` instance (has attributes
    `r`, `s` and the `tuple` property);
  * `rsObj r s` — any other object exposing attributes `r` and `s`
    (but no `tuple` property);
  * `other` — anything else. -/
inductive SigInput where
  | tup (xs : List Int)
  | sigParam (r s : Int)
  | rsObj (r s : Int)
  | other
deriving DecidableEq, Repr

/-- Result of `_load_signature`: either a `SignatureParameter` (carrying
the `tuple` property) or a pass-through duck-typed object exposing only
`r` and `s`. -/
inductive LoadedSig where
  | sigParam (r s : Int)
  | rsObj (r s : Int)
deriving DecidableEq, Repr

/-- Attribute `r` of a loaded signature. -/
def LoadedSig.r : LoadedSig → Int
  | .sigParam r _ => r
  | .rsObj r _ => r

/-- Attribute `s` of a loaded signature. -/
def LoadedSig.s : LoadedSig → Int
  | .sigParam _ s => s
  | .rsObj _ s => s

/-- The `tuple` property: only `SignatureParameter` has it; on a plain
duck-typed `(r, s)` object the access raises `AttributeError`. -/
def LoadedSig.tuple : LoadedSig → Except Err (Int × Int)
  | .sigParam r s => .ok (r, s)
  | .rsObj _ _ => .error .attributeError

/-- `RecoverableSignature._load_signature` (source lines 116-123):
objects with attributes `r` and `s` are returned unchanged; tuples are
splatted into `SignatureParameter(*sig)` — which raises `TypeError`
unless the tuple has exactly two components; everything else raises
`ValueError` ("Invalid Signature Format"). -/
def load_signature : SigInput → Except Err LoadedSig
  | .sigParam r s => .ok (.sigParam r s)
  | .rsObj r s => .ok (.rsObj r s)
  | .tup [r, s] => .ok (.sigParam r s)
  | .tup _ => .error .typeError
  | .other => .error .validationError

/-- The possible shapes of the `h` (digest) argument:  an `int`, a
`bytes` value (list of byte values), a `str`, or anything else. -/
inductive HashInput where
  | int (i : Int)
  | bytes (bs : List Nat)
  | str (cs : List Nat)
  | other
deriving DecidableEq, Repr

/-- `Crypto.Util.number.bytes_to_long` on a `bytes` value: big-endian
interpretation.  (The library's `struct`-based loop computes exactly this
fold; the zero-padding it prepends does not change the value.) -/
def bytes_to_long (bs : List Nat) : Int :=
  bs.foldl (fun acc b => acc * 256 + (b : Int)) 0

/-- `RecoverableSignature._load_hash` (source lines 125-132): `int`
passes through; `bytes` is converted big-endian.  A `str` also enters the
`bytes_to_long` branch, but on Python 3 `bytes_to_long` cannot process a
`str` (it concatenates a `bytes` padding onto it / `struct.unpack`s it)
and raises `TypeError`.  Any other type raises
`ValueError` ("Invalid Hash Format"). -/
def load_hash : HashInput → Except Err Int
  | .int i => .ok i
  | .bytes bs => .ok (bytes_to_long bs)
  | .str _ => .error .typeError
  | .other => .error .validationError

/-! ## The library modular inverse (`ecdsa.numbertheory.inverse_mod`)

Modelled from the spec (section 4.1): `inverse_mod(a, n)` returns the
`x` with `a*x ≡ 1 (mod n)` — necessarily the unique such value in
`[0, n)`, the one the extended Euclidean algorithm produces — and fails
with `DomainError` when `gcd(a, n) ≠ 1`.  The external library is not
part of the repository sources, so this definition follows the spec's
words; it is written as a bounded search so that it is executable and
kernel-reducible at the concrete group orders used below. -/
def inverse_mod (a : Int) (m : Nat) : Except Err Int :=
  match (List.range m).find? (fun x : Nat => (a * (x : Int)) % (m : Int) == 1) with
  | some x => .ok (x : Int)
  | none => .error .domainError

/-! ## The local `inverse` helper of the source (lines 21-46)

This is repository code and is translated literally.  Python's `%` and
`//` on possibly-negative operands are floor-based: `Int.fmod` and
`Int.fdiv`. -/

theorem fmod_natAbs_lt (b a : Int) (ha : a ≠ 0) :
    (Int.fmod b a).natAbs < a.natAbs := by
  rcases lt_or_gt_of_ne ha with hneg | hpos
  · obtain ⟨n, rfl⟩ := Int.eq_negSucc_of_lt_zero hneg
    cases b with
    | ofNat m =>
      cases m with
      | zero => simp [Int.fmod]
      | succ m =>
        have hlt : m % (n + 1) < n + 1 := Nat.mod_lt m (Nat.succ_pos n)
        simp only [Int.fmod, Int.subNatNat_eq_coe, Int.natAbs_negSucc,
          Nat.succ_eq_add_one]
        omega
    | negSucc m =>
      have hlt : (m + 1) % (n + 1) < n + 1 := Nat.mod_lt (m + 1) (Nat.succ_pos n)
      simp only [Int.fmod, Int.ofNat_eq_natCast, Int.natAbs_neg, Int.natAbs_negSucc,
        Int.natAbs_ofNat, Nat.succ_eq_add_one]
      omega
  · have h1 : 0 ≤ Int.fmod b a := Int.fmod_nonneg' b hpos
    have h2 : Int.fmod b a < a := Int.fmod_lt_of_pos b hpos
    omega

/-- The inner `extended_gcd(a, b)` of the source's `inverse` (lines
35-41), with Python floor division/modulo semantics.  Returns
`(gcd, x, y)`.  Note that for a negative first argument the recursion
bottoms out at a negative "gcd". -/
def extended_gcd (a b : Int) : Int × Int × Int :=
  if _h : a = 0 then (b, 0, 1)
  else
    let r := extended_gcd (Int.fmod b a) a
    (r.1, r.2.2 - (Int.fdiv b a) * r.2.1, r.2.1)
termination_by a.natAbs
decreasing_by exact fmod_natAbs_lt b a _h

/-- The source's `inverse(a, n)` (lines 21-46): extended Euclid, then
`ValueError` (`domainError`) when the computed gcd is not 1, else
`x % n` (Python `%`, floor-based — equal to `Int.emod` for the positive
moduli in use, but translated as `Int.fmod` faithfully). -/
def inverse (a n : Int) : Except Err Int :=
  let r := extended_gcd a n
  if r.1 ≠ 1 then .error .domainError
  else .ok (Int.fmod r.2.1 n)

deriving instance DecidableEq for Except

/-! ### Facts about `inverse_mod` -/

theorem inverse_mod_ok {a : Int} {m : Nat} {v : Int}
    (h : inverse_mod a m = .ok v) :
    0 ≤ v ∧ v < (m : Int) ∧ (a * v) % (m : Int) = 1 := by
  unfold inverse_mod at h
  cases hf : (List.range m).find? (fun x : Nat => (a * (x : Int)) % (m : Int) == 1) with
  | none => rw [hf] at h; exact absurd h (by simp)
  | some x =>
    rw [hf] at h
    have hx : ((x : Int)) = v := by simpa using h
    have hp := List.find?_some hf
    have hmem := List.mem_of_find?_eq_some hf
    have hlt : x < m := List.mem_range.mp hmem
    subst hx
    refine ⟨by positivity, by exact_mod_cast hlt, by simpa using hp⟩

theorem inverse_mod_exists {a : Int} {m : Nat} (hm : 1 < m)
    (hg : Int.gcd a m = 1) :
    ∃ v : Int, inverse_mod a m = .ok v := by
  have hco : IsCoprime a (m : Int) := Int.gcd_eq_one_iff_coprime.mp hg
  obtain ⟨u, w, huw⟩ := hco
  have hmpos : (0 : Int) < m := by exact_mod_cast Nat.lt_of_lt_of_le Nat.zero_lt_one hm.le
  -- witness: u % m
  have hwit : (a * ((u % m : Int).toNat : Int)) % (m : Int) = 1 := by
    have h0 : (0 : Int) ≤ u % m := Int.emod_nonneg u (by omega)
    rw [Int.toNat_of_nonneg h0]
    have hsw : (a * (u % m)) % (m : Int) = (a * u) % (m : Int) := by
      conv_lhs => rw [Int.mul_emod, Int.emod_emod_of_dvd u dvd_rfl, ← Int.mul_emod]
    rw [hsw]
    have hau : a * u = 1 - (m : Int) * w := by linarith [huw]
    rw [hau, Int.sub_emod, Int.mul_emod_right, sub_zero, Int.emod_emod_of_dvd 1 dvd_rfl]
    exact Int.emod_eq_of_lt (by omega) (by exact_mod_cast hm)
  have hmem : (u % (m : Int)).toNat ∈ List.range m := by
    refine List.mem_range.mpr ?_
    have h0 : (0 : Int) ≤ u % m := Int.emod_nonneg u (by omega)
    have h1 : u % (m : Int) < m := Int.emod_lt_of_pos u hmpos
    omega
  have hsome : ((List.range m).find? (fun x : Nat => (a * (x : Int)) % (m : Int) == 1)).isSome := by
    rw [List.find?_isSome]
    exact ⟨(u % (m : Int)).toNat, hmem, by simpa using hwit⟩
  unfold inverse_mod
  cases hf : (List.range m).find? (fun x : Nat => (a * (x : Int)) % (m : Int) == 1) with
  | none => rw [hf] at hsome; simp at hsome
  | some x => exact ⟨x, rfl⟩

/-- Any value returned by `inverse_mod a m` is an inverse of `a` in `ZMod m`. -/
theorem inverse_mod_zmod {a : Int} {m : Nat} {v : Int}
    (h : inverse_mod a m = .ok v) : (a : ZMod m) * (v : ZMod m) = 1 := by
  obtain ⟨-, -, hmul⟩ := inverse_mod_ok h
  have hc := congrArg (fun z : Int => (z : ZMod m)) (hmul)
  simpa [ZMod.intCast_mod, Int.cast_mul] using hc

/-! ## DSA (`DsaSignature`, source lines 155-200)

The bound public key is a PyCrypto-style DSA key object.  The core only
uses its group parameters and its `verify` predicate.  `verify` itself is
external library code; it is modelled from the spec (section 3
`PublicKeyBinding`: "a verification operation `verify(digest, signature)
-> bool`"), with the standard DSA verification equation and the usual
range check `0 < r < q`, `0 < s < q`. -/

/-- The fields of a DSA public key object (`p`, `q`, `g`, `y`). -/
structure DsaPubkey where
  p : Nat
  q : Nat
  g : Nat
  y : Nat
deriving DecidableEq, Repr

/-- Modelled from the spec: the bound DSA public key's verification
predicate.  Standard DSA: reject unless `0 < r < q` and `0 < s < q`;
then `w = s⁻¹ mod q`, `u1 = h·w mod q`, `u2 = r·w mod q`, and accept iff
`(g^u1 · y^u2 mod p) mod q = r`.  (A non-invertible `s` cannot verify.) -/
def dsaVerify (pk : DsaPubkey) (h : Int) (r s : Int) : Bool :=
  if r ≤ 0 ∨ (pk.q : Int) ≤ r ∨ s ≤ 0 ∨ (pk.q : Int) ≤ s then false
  else
    match inverse_mod s pk.q with
    | .error _ => false
    | .ok w =>
      let u1 : Nat := ((h * w) % (pk.q : Int)).toNat
      let u2 : Nat := ((r * w) % (pk.q : Int)).toNat
      ((pk.g ^ u1 * pk.y ^ u2 % pk.p % pk.q : Nat) : Int) == r

/-- A constructed `DsaSignature` instance: loaded signature, loaded
digest, bound public key, and the recovery result fields
`self.k` / `self.x` (source lines 110-111). -/
structure DsaSig where
  pk : DsaPubkey
  sig : LoadedSig
  h : Int
  k : Option Int
  x : Option Int
deriving DecidableEq, Repr

/-- `DsaSignature.__init__` (source lines 101-111 and 160-165): load the
signature and digest, bind the public key, then the verification gate
`assert self.pubkey.verify(self.h, self.sig.tuple)`.  Evaluating
`self.sig.tuple` raises `AttributeError` on a duck-typed `(r, s)` object
that is not a `SignatureParameter`; a failing `assert` raises
(`validationError`). -/
def mkDsaSignature (sigIn : SigInput) (hIn : HashInput) (pk : DsaPubkey) :
    Except Err DsaSig := do
  let sig ← load_signature sigIn
  let h ← load_hash hIn
  let rs ← sig.tuple
  if dsaVerify pk h rs.1 rs.2 then
    .ok { pk := pk, sig := sig, h := h, k := none, x := none }
  else .error .validationError

/-- `DsaSignature.recover_nonce_reuse` (source lines 193-200), as a state
transformer returning the updated `self` together with the raised
exception, if any.  The two `assert` preconditions map to
`validationError`; a `ValueError` raised by `inverse` propagates.  Note
that `self.k` is assigned *before* the second `inverse` call. -/
def dsaRecover (self other : DsaSig) : DsaSig × Option Err :=
  if self.pk.q ≠ other.pk.q then (self, some .validationError)
  else if self.sig.r ≠ other.sig.r then (self, some .validationError)
  else
    match inverse (self.sig.s - other.sig.s) (self.pk.q : Int) with
    | .error e => (self, some e)
    | .ok v1 =>
      let kv := ((self.h - other.h) * v1) % (self.pk.q : Int)
      let self1 : DsaSig := { self with k := some kv }
      match inverse self.sig.r (self.pk.q : Int) with
      | .error e => (self1, some e)
      | .ok v2 =>
        ({ self1 with x := some (((kv * self.sig.s - self.h) * v2) % (self.pk.q : Int)) },
         none)

/-- Modelled from the spec (section 8, "the DSA signing equation"):
`r = (g^k mod p) mod q`, `s = k⁻¹ (h + x·r) mod q`, failing when `r` or
`s` is zero (a signer would redraw the nonce). -/
def dsaSign (p q g : Nat) (x k : Nat) (h : Int) : Except Err (Int × Int) :=
  let r : Nat := g ^ k % p % q
  match inverse_mod (k : Int) q with
  | .error e => .error e
  | .ok w =>
    let s : Int := (w * (h + (x : Int) * (r : Int))) % (q : Int)
    if r = 0 ∨ s = 0 then .error .validationError else .ok ((r : Int), s)

/-! ## ECDSA (`EcDsaSignature`, source lines 202-278)

The external `ecdsa` library's elliptic-curve group is cyclic of order
`n` (prime for real curves), generated by the base point `G`.  Points of
the curve are therefore represented by their discrete logarithms:
`t : ZMod n` stands for the point `t·G` (`t = 0` is the point at
infinity).  The affine x-coordinate is an abstract function
`xc : ZMod n → ℕ`; nothing in the repository source inspects the curve
equation, so this representation is exact for everything the source
does.  A curve object carries the group order, the x-coordinate map and
the decoder used by `VerifyingKey.from_string`. -/

/-- An `ecdsa.ecdsa.Public_key`-style object: a point `Q` on a group of
order `n` with x-coordinate map `xc`. -/
structure EcPoint where
  n : Nat
  xc : ZMod n → Nat
  Q : ZMod n

/-- A curve object (`ecdsa.SECP256k1`-style): order, x-coordinate map,
and the byte decoder backing `VerifyingKey.from_string`. -/
structure EcCurve where
  n : Nat
  xc : ZMod n → Nat
  decode : List Nat → Except Err (ZMod n)

/-- A duck-typed pubkey object that is neither a `Public_key` nor
`str`/`bytes`: whatever attributes it happens to expose
(`generator.order()` and `verifies`). -/
structure RawPk where
  order : Option Nat
  verif : Int → Int → Int → Except Err Bool

/-- The possible shapes of the `pubkey` argument of
`EcDsaSignature.__init__`. -/
inductive EcPubkeyInput where
  | publicKey (pt : EcPoint)
  | encoded (bs : List Nat)
  | raw (o : RawPk)

/-- The result of `EcDsaSignature._load_pubkey`. -/
inductive LoadedPk where
  | point (pt : EcPoint)
  | raw (o : RawPk)

/-- `EcDsaSignature._load_pubkey` (source lines 213-218): a `Public_key`
instance is returned as-is; `str`/`bytes` is decoded against the bound
curve via `VerifyingKey.from_string`; anything else is returned
unchanged, with no validation at all. -/
def ecLoadPubkey (c : EcCurve) : EcPubkeyInput → Except Err LoadedPk
  | .publicKey pt => .ok (.point pt)
  | .encoded bs => do
    let q ← c.decode bs
    .ok (.point ⟨c.n, c.xc, q⟩)
  | .raw o => .ok (.raw o)

/-- `pubkey.generator.order()` (source line 207): a raw object without
the attribute chain raises `AttributeError`. -/
def LoadedPk.generatorOrder : LoadedPk → Except Err Nat
  | .point pt => .ok pt.n
  | .raw o =>
    match o.order with
    | some n => .ok n
    | none => .error .attributeError

/-- Modelled from the spec (section 3 `PublicKeyBinding`) and the
`ecdsa` library's `Public_key.verifies`: range-check
`1 ≤ r ≤ n-1`, `1 ≤ s ≤ n-1`; `c = s⁻¹ mod n` (propagating the library
inverse's failure); `u1 = h·c mod n`, `u2 = r·c mod n`;
the point `u1·G + u2·Q` (in discrete-log representation
`u1 + u2·q`); taking `.x()` of the point at infinity fails
(`typeError`); otherwise accept iff `x(point) mod n = r`. -/
def ecVerifies (n : Nat) (xc : ZMod n → Nat) (Q : ZMod n) (h r s : Int) :
    Except Err Bool :=
  if r < 1 ∨ (n : Int) - 1 < r then .ok false
  else if s < 1 ∨ (n : Int) - 1 < s then .ok false
  else
    match inverse_mod s n with
    | .error e => .error e
    | .ok cinv =>
      let u1 := (h * cinv) % (n : Int)
      let u2 := (r * cinv) % (n : Int)
      let pt : ZMod n := (u1 : ZMod n) + (u2 : ZMod n) * Q
      if pt = 0 then .error .typeError
      else .ok (((xc pt : Nat) : Int) % (n : Int) == r)

/-- Verification dispatch on the loaded pubkey object. -/
def LoadedPk.verifies : LoadedPk → Int → Int → Int → Except Err Bool
  | .point pt, h, r, s => ecVerifies pt.n pt.xc pt.Q h r s
  | .raw o, h, r, s => o.verif h r s

/-- A constructed `EcDsaSignature` instance (source lines 203-211). -/
structure EcSig where
  curve : EcCurve
  sig : LoadedSig
  h : Int
  pk : LoadedPk
  n : Nat
  signingkey : Option Int
  k : Option Int
  x : Option Int

/-- `EcDsaSignature.__init__` (source lines 203-211): load signature,
digest and pubkey (base class `__init__`), set `signingkey = None`,
compute `self.n = pubkey.generator.order()`, then the verification gate
`assert self.pubkey.verifies(self.h, self.sig)`. -/
def mkEcSignature (c : EcCurve) (sigIn : SigInput) (hIn : HashInput)
    (pkIn : EcPubkeyInput) : Except Err EcSig := do
  let sig ← load_signature sigIn
  let h ← load_hash hIn
  let pk ← ecLoadPubkey c pkIn
  let n ← pk.generatorOrder
  let v ← pk.verifies h sig.r sig.s
  if v then
    .ok { curve := c, sig := sig, h := h, pk := pk, n := n,
          signingkey := none, k := none, x := none }
  else .error .validationError

/-- The candidate list of `EcDsaSignature.recover_nonce_reuse` (source
lines 266-269), in source order:
`s1-s2, s1+s2, -s1-s2, -s1+s2`. -/
def fourCandidates (self other : EcSig) : List Int :=
  [self.sig.s - other.sig.s,
   self.sig.s + other.sig.s,
   -self.sig.s - other.sig.s,
   -self.sig.s + other.sig.s]

/-- The candidate loop body of `recover_nonce_reuse` (source lines
266-277): for each candidate, `k = z·candidate⁻¹ mod n`,
`d = ((s1·k - h1) mod n)·r_inv mod n`, build the trial key
(`SigningKey.from_secret_exponent` requires `1 ≤ d < curve.order`),
check the trial key's public key against `(h1, sig1)`, and on the first
success assign `signingkey`, `k`, `x` and return; an exhausted loop hits
`assert False` (`recoveryFailure`). -/
def tryCandidates (self : EcSig) (z r_inv : Int) :
    List Int → EcSig × Option Err
  | [] => (self, some .recoveryFailure)
  | cand :: rest =>
    match inverse_mod cand self.n with
    | .error e => (self, some e)
    | .ok ci =>
      let k := (z * ci) % (self.n : Int)
      let d := (((self.sig.s * k - self.h) % (self.n : Int)) * r_inv) % (self.n : Int)
      if d < 1 ∨ (self.curve.n : Int) ≤ d then (self, some .malformedPoint)
      else
        match ecVerifies self.curve.n self.curve.xc (d : ZMod self.curve.n)
            self.h self.sig.r self.sig.s with
        | .error e => (self, some e)
        | .ok true =>
          ({ self with signingkey := some d, k := some k, x := some d }, none)
        | .ok false => tryCandidates self z r_inv rest

/-- `EcDsaSignature.recover_nonce_reuse` (source lines 257-278), as a
state transformer: `z = h1 - h2` and `r_inv = inverse_mod(r, n)` are
computed up front, then the four candidates are tried in order. -/
def ecRecover (self other : EcSig) : EcSig × Option Err :=
  let z := self.h - other.h
  match inverse_mod self.sig.r self.n with
  | .error e => (self, some e)
  | .ok r_inv => tryCandidates self z r_inv (fourCandidates self other)

/-- Executable mirror of one candidate trial: does this candidate yield
a trial key whose derived public key verifies `(h1, (r, s1))`?  (Exactly
the test the loop body of `tryCandidates` performs.) -/
def candidateYields (self : EcSig) (z r_inv cand : Int) : Bool :=
  match inverse_mod cand self.n with
  | .error _ => false
  | .ok ci =>
    let k := (z * ci) % (self.n : Int)
    let d := (((self.sig.s * k - self.h) % (self.n : Int)) * r_inv) % (self.n : Int)
    if d < 1 ∨ (self.curve.n : Int) ≤ d then false
    else
      match ecVerifies self.curve.n self.curve.xc (d : ZMod self.curve.n)
          self.h self.sig.r self.sig.s with
      | .ok true => true
      | _ => false

/-- A recovery success is self-verified: the recovered secret's derived
public key verifies the instance's own `(h, sig)`. -/
def selfVerifiedEc (s : EcSig) : Prop :=
  ∃ d : Int, s.x = some d ∧
    ecVerifies s.curve.n s.curve.xc (d : ZMod s.curve.n) s.h s.sig.r s.sig.s = .ok true

/-- Modelled from the `ecdsa` library's `Private_key.sign` and the
spec's signing description: `r = (k·G).x() mod n` (the point at infinity
has no x-coordinate), `s = k⁻¹·(h + (d·r mod n)) mod n`, and the signer
redraws (here: fails) when `r = 0` or `s = 0`. -/
def ecdsaSign (c : EcCurve) (d k : Nat) (h : Int) : Except Err (Int × Int) :=
  if (k : ZMod c.n) = 0 then .error .typeError
  else
    let r : Int := ((c.xc (k : ZMod c.n) : Nat) : Int) % (c.n : Int)
    match inverse_mod (k : Int) c.n with
    | .error e => .error e
    | .ok w =>
      let s : Int := (w * (h + ((d : Int) * r) % (c.n : Int))) % (c.n : Int)
      if r = 0 ∨ s = 0 then .error .runtimeError
      else .ok (r, s)

/-! ## Arithmetic helper lemmas -/

theorem int_eq_of_zmod_eq {n : Nat} {a b : Int} (ha0 : 0 ≤ a) (ha1 : a < n)
    (hb0 : 0 ≤ b) (hb1 : b < n) (h : (a : ZMod n) = (b : ZMod n)) : a = b := by
  have hmod := (ZMod.intCast_eq_intCast_iff' a b n).mp h
  rwa [Int.emod_eq_of_lt ha0 ha1, Int.emod_eq_of_lt hb0 hb1] at hmod

theorem zmod_intCast_ne_zero {n : Nat} {s : Int} (h1 : 0 < s) (h2 : s < n) :
    (s : ZMod n) ≠ 0 := by
  intro h0
  have hd := (ZMod.intCast_zmod_eq_zero_iff_dvd s n).mp h0
  have := Int.le_of_dvd h1 hd
  omega

theorem gcd_one_of_prime {n : Nat} (hp : n.Prime) {s : Int}
    (hs : (s : ZMod n) ≠ 0) : Int.gcd s (n : Int) = 1 := by
  have hdvd : ¬ ((n : Int) ∣ s) := fun hd =>
    hs ((ZMod.intCast_zmod_eq_zero_iff_dvd s n).mpr hd)
  have hdvd2 : ¬ (n ∣ s.natAbs) := fun hd => hdvd (Int.natCast_dvd.mpr hd)
  have hco : Nat.Coprime n s.natAbs := (Nat.Prime.coprime_iff_not_dvd hp).mpr hdvd2
  simpa [Int.gcd, Int.natAbs_ofNat] using hco.symm

/-! ## The honest ECDSA signer verifies -/

theorem ecdsaSign_ok {c : EcCurve} {d k : Nat} {h r s : Int}
    (hs : ecdsaSign c d k h = .ok (r, s)) :
    (k : ZMod c.n) ≠ 0 ∧
    r = ((c.xc (k : ZMod c.n) : Nat) : Int) % (c.n : Int) ∧
    r ≠ 0 ∧ s ≠ 0 ∧
    ∃ w, inverse_mod (k : Int) c.n = .ok w ∧
      s = (w * (h + ((d : Int) * r) % (c.n : Int))) % (c.n : Int) := by
  unfold ecdsaSign at hs
  by_cases hk : (k : ZMod c.n) = 0
  · rw [if_pos hk] at hs; exact absurd hs (by simp)
  · rw [if_neg hk] at hs
    cases hw : inverse_mod (k : Int) c.n with
    | error e => rw [hw] at hs; exact absurd hs (by simp)
    | ok w =>
      rw [hw] at hs
      simp only [] at hs
      split at hs
      · exact absurd hs (by simp)
      · rename_i hz
        push_neg at hz
        have hrs := hs
        simp only [Except.ok.injEq, Prod.mk.injEq] at hrs
        obtain ⟨hr1, hs1⟩ := hrs
        refine ⟨hk, hr1.symm, ?_, ?_, w, rfl, ?_⟩
        · rw [← hr1]; exact hz.1
        · rw [← hs1]; exact hz.2
        · rw [← hs1, ← hr1]

theorem ecVerifies_of_sign {c : EcCurve} (hp : c.n.Prime) {d k : Nat} {h r s : Int}
    (hsig : ecdsaSign c d k h = .ok (r, s)) {Q : ZMod c.n}
    (hQ : Q = (d : ZMod c.n)) :
    ecVerifies c.n c.xc Q h r s = .ok true := by
  obtain ⟨hk0, hr, hr0, hs0, w, hw, hsdef⟩ := ecdsaSign_ok hsig
  have hn2 : 2 ≤ c.n := hp.two_le
  have hnpos : (0 : Int) < (c.n : Int) := by exact_mod_cast (by omega : 0 < c.n)
  have hrr : 0 ≤ r ∧ r < (c.n : Int) :=
    ⟨hr ▸ Int.emod_nonneg _ (by omega), hr ▸ Int.emod_lt_of_pos _ hnpos⟩
  have hss : 0 ≤ s ∧ s < (c.n : Int) :=
    ⟨hsdef ▸ Int.emod_nonneg _ (by omega), hsdef ▸ Int.emod_lt_of_pos _ hnpos⟩
  have hsne : (s : ZMod c.n) ≠ 0 := zmod_intCast_ne_zero (by omega) hss.2
  obtain ⟨cinv, hcinv⟩ := inverse_mod_exists (by omega) (gcd_one_of_prime hp hsne)
  -- the inverse facts, in ZMod
  have hscinv : (s : ZMod c.n) * (cinv : ZMod c.n) = 1 := inverse_mod_zmod hcinv
  have hkw : ((k : Int) : ZMod c.n) * (w : ZMod c.n) = 1 := inverse_mod_zmod hw
  have hkw' : (k : ZMod c.n) * (w : ZMod c.n) = 1 := by
    rwa [Int.cast_natCast] at hkw
  -- s·k = h + d·r in ZMod n
  have hsval : (s : ZMod c.n) = (w : ZMod c.n) * ((h : ZMod c.n) + (d : ZMod c.n) * (r : ZMod c.n)) := by
    rw [hsdef]
    push_cast [ZMod.intCast_mod]
    ring
  have hsk : (s : ZMod c.n) * (k : ZMod c.n) = (h : ZMod c.n) + (d : ZMod c.n) * (r : ZMod c.n) := by
    rw [hsval]
    calc (w : ZMod c.n) * ((h : ZMod c.n) + (d : ZMod c.n) * (r : ZMod c.n)) * (k : ZMod c.n)
        = ((h : ZMod c.n) + (d : ZMod c.n) * (r : ZMod c.n)) * ((k : ZMod c.n) * (w : ZMod c.n)) := by
          ring
      _ = (h : ZMod c.n) + (d : ZMod c.n) * (r : ZMod c.n) := by rw [hkw', mul_one]
  -- the verification point is k·G
  have hpt : (((h * cinv) % (c.n : Int) : Int) : ZMod c.n) +
      (((r * cinv) % (c.n : Int) : Int) : ZMod c.n) * Q = (k : ZMod c.n) := by
    rw [hQ]
    push_cast [ZMod.intCast_mod]
    calc (h : ZMod c.n) * (cinv : ZMod c.n) + (r : ZMod c.n) * (cinv : ZMod c.n) * (d : ZMod c.n)
        = ((h : ZMod c.n) + (d : ZMod c.n) * (r : ZMod c.n)) * (cinv : ZMod c.n) := by ring
      _ = ((s : ZMod c.n) * (k : ZMod c.n)) * (cinv : ZMod c.n) := by rw [hsk]
      _ = (k : ZMod c.n) * ((s : ZMod c.n) * (cinv : ZMod c.n)) := by ring
      _ = (k : ZMod c.n) := by rw [hscinv, mul_one]
  unfold ecVerifies
  rw [if_neg (by omega : ¬(r < 1 ∨ (c.n : Int) - 1 < r)),
    if_neg (by omega : ¬(s < 1 ∨ (c.n : Int) - 1 < s)), hcinv]
  simp only []
  rw [hpt, if_neg hk0]
  have : (((c.xc (k : ZMod c.n) : Nat) : Int) % (c.n : Int) == r) = true := by
    rw [beq_iff_eq, ← hr]
  rw [this]

theorem ecRecover_honest {c : EcCurve} (hp : c.n.Prime) {d k : Nat}
    {h1 h2 r s1 s2 : Int}
    (hd1 : 1 ≤ d) (hd2 : d < c.n) (hk2 : k < c.n)
    (hsig1 : ecdsaSign c d k h1 = .ok (r, s1))
    (hsig2 : ecdsaSign c d k h2 = .ok (r, s2))
    (hh : (h1 - h2) % (c.n : Int) ≠ 0)
    (other : EcSig) (hos : other.sig.s = s2) (hoh : other.h = h2)
    (self : EcSig)
    (hself : self = { curve := c, sig := .sigParam r s1, h := h1,
                      pk := .point ⟨c.n, c.xc, (d : ZMod c.n)⟩, n := c.n,
                      signingkey := none, k := none, x := none }) :
    ecRecover self other =
      ({ self with signingkey := some (d : Int), k := some (k : Int),
                   x := some (d : Int) }, none) := by
  subst hself
  have hn2 : 2 ≤ c.n := hp.two_le
  have hnpos : (0 : Int) < (c.n : Int) := by exact_mod_cast (by omega : 0 < c.n)
  obtain ⟨hk0, hr, hr0, hs10, w, hw, hs1def⟩ := ecdsaSign_ok hsig1
  obtain ⟨-, -, -, hs20, w2, hw2, hs2def⟩ := ecdsaSign_ok hsig2
  have hww : w2 = w := by
    have hok := hw.symm.trans hw2
    simpa using hok.symm
  rw [hww] at hs2def
  -- ranges
  have hrr : 0 ≤ r ∧ r < (c.n : Int) :=
    ⟨hr ▸ Int.emod_nonneg _ (by omega), hr ▸ Int.emod_lt_of_pos _ hnpos⟩
  have hss1 : 0 ≤ s1 ∧ s1 < (c.n : Int) :=
    ⟨hs1def ▸ Int.emod_nonneg _ (by omega), hs1def ▸ Int.emod_lt_of_pos _ hnpos⟩
  have hss2 : 0 ≤ s2 ∧ s2 < (c.n : Int) :=
    ⟨hs2def ▸ Int.emod_nonneg _ (by omega), hs2def ▸ Int.emod_lt_of_pos _ hnpos⟩
  -- ZMod facts
  have hkw : (k : ZMod c.n) * (w : ZMod c.n) = 1 := by
    have hzw := inverse_mod_zmod hw
    rwa [Int.cast_natCast] at hzw
  have hs1val : (s1 : ZMod c.n) =
      (w : ZMod c.n) * ((h1 : ZMod c.n) + (d : ZMod c.n) * (r : ZMod c.n)) := by
    rw [hs1def]; push_cast [ZMod.intCast_mod]; ring
  have hs2val : (s2 : ZMod c.n) =
      (w : ZMod c.n) * ((h2 : ZMod c.n) + (d : ZMod c.n) * (r : ZMod c.n)) := by
    rw [hs2def]; push_cast [ZMod.intCast_mod]; ring
  have hs1k : (s1 : ZMod c.n) * (k : ZMod c.n) =
      (h1 : ZMod c.n) + (d : ZMod c.n) * (r : ZMod c.n) := by
    rw [hs1val]
    calc (w : ZMod c.n) * ((h1 : ZMod c.n) + (d : ZMod c.n) * (r : ZMod c.n)) * (k : ZMod c.n)
        = ((h1 : ZMod c.n) + (d : ZMod c.n) * (r : ZMod c.n)) *
            ((k : ZMod c.n) * (w : ZMod c.n)) := by ring
      _ = (h1 : ZMod c.n) + (d : ZMod c.n) * (r : ZMod c.n) := by rw [hkw, mul_one]
  -- h1 - h2 is nonzero mod n
  have hz0 : ((h1 - h2 : Int) : ZMod c.n) ≠ 0 := by
    intro h0
    exact hh (Int.dvd_iff_emod_eq_zero.mp ((ZMod.intCast_zmod_eq_zero_iff_dvd _ _).mp h0))
  -- the first candidate, s1 - s2, equals w·(h1 - h2) mod n
  have hc1 : ((s1 - s2 : Int) : ZMod c.n) =
      (w : ZMod c.n) * ((h1 - h2 : Int) : ZMod c.n) := by
    push_cast
    rw [hs1val, hs2val]; ring
  have hzc : ((h1 - h2 : Int) : ZMod c.n) =
      (k : ZMod c.n) * ((s1 - s2 : Int) : ZMod c.n) := by
    have hstep : (k : ZMod c.n) * ((s1 - s2 : Int) : ZMod c.n) =
        ((k : ZMod c.n) * (w : ZMod c.n)) * ((h1 - h2 : Int) : ZMod c.n) := by
      rw [hc1]; ring
    rw [hstep, hkw, one_mul]
  have hc1ne : ((s1 - s2 : Int) : ZMod c.n) ≠ 0 := by
    intro h0
    apply hz0
    rw [hzc, h0, mul_zero]
  obtain ⟨ci, hci⟩ := inverse_mod_exists (by omega) (gcd_one_of_prime hp hc1ne)
  have hcic : ((s1 - s2 : Int) : ZMod c.n) * (ci : ZMod c.n) = 1 := inverse_mod_zmod hci
  -- r is invertible
  have hrne : (r : ZMod c.n) ≠ 0 := zmod_intCast_ne_zero (by omega) hrr.2
  obtain ⟨rinv, hrinv⟩ := inverse_mod_exists (by omega) (gcd_one_of_prime hp hrne)
  have hrc : (r : ZMod c.n) * (rinv : ZMod c.n) = 1 := inverse_mod_zmod hrinv
  -- the computed nonce equals k
  have hkv : ((h1 - h2) * ci) % (c.n : Int) = (k : Int) := by
    refine int_eq_of_zmod_eq (Int.emod_nonneg _ (by omega)) (Int.emod_lt_of_pos _ hnpos)
      (by positivity) (by exact_mod_cast hk2) ?_
    rw [ZMod.intCast_mod]
    have hfin : ((h1 - h2 : Int) : ZMod c.n) * (ci : ZMod c.n) = (k : ZMod c.n) := by
      rw [hzc]
      calc (k : ZMod c.n) * ((s1 - s2 : Int) : ZMod c.n) * (ci : ZMod c.n)
          = (k : ZMod c.n) * (((s1 - s2 : Int) : ZMod c.n) * (ci : ZMod c.n)) := by ring
        _ = (k : ZMod c.n) := by rw [hcic, mul_one]
    calc (((h1 - h2) * ci : Int) : ZMod c.n)
        = ((h1 - h2 : Int) : ZMod c.n) * (ci : ZMod c.n) := by push_cast; ring
      _ = (k : ZMod c.n) := hfin
      _ = (((k : Nat) : Int) : ZMod c.n) := by push_cast; rfl
  -- the computed secret equals d
  have hdv : ((s1 * (k : Int) - h1) % (c.n : Int) * rinv) % (c.n : Int) = (d : Int) := by
    refine int_eq_of_zmod_eq (Int.emod_nonneg _ (by omega)) (Int.emod_lt_of_pos _ hnpos)
      (by positivity) (by exact_mod_cast hd2) ?_
    rw [ZMod.intCast_mod]
    push_cast [ZMod.intCast_mod]
    calc ((s1 : ZMod c.n) * (k : ZMod c.n) - (h1 : ZMod c.n)) * (rinv : ZMod c.n)
        = (((h1 : ZMod c.n) + (d : ZMod c.n) * (r : ZMod c.n)) - (h1 : ZMod c.n)) *
            (rinv : ZMod c.n) := by rw [hs1k]
      _ = (d : ZMod c.n) * ((r : ZMod c.n) * (rinv : ZMod c.n)) := by ring
      _ = (d : ZMod c.n) := by rw [hrc, mul_one]
  -- now run the code
  unfold ecRecover fourCandidates
  rw [hos, hoh]
  dsimp only [LoadedSig.r, LoadedSig.s]
  rw [hrinv]
  unfold tryCandidates
  dsimp only [LoadedSig.r, LoadedSig.s]
  rw [hci]
  dsimp only [LoadedSig.r, LoadedSig.s]
  simp only [hkv, hdv]
  have hQcast : ((((d : Nat) : Int)) : ZMod c.n) = ((d : Nat) : ZMod c.n) := by
    push_cast; rfl
  rw [if_neg (by omega : ¬(((d : Nat) : Int) < 1 ∨ (c.n : Int) ≤ ((d : Nat) : Int))),
    hQcast, ecVerifies_of_sign hp hsig1 rfl]

theorem mkEcSignature_honest {c : EcCurve} (hp : c.n.Prime) {d k : Nat} {h r s : Int}
    (hsig : ecdsaSign c d k h = .ok (r, s)) :
    mkEcSignature c (.tup [r, s]) (.int h) (.publicKey ⟨c.n, c.xc, (d : ZMod c.n)⟩) =
      .ok { curve := c, sig := .sigParam r s, h := h,
            pk := .point ⟨c.n, c.xc, (d : ZMod c.n)⟩, n := c.n,
            signingkey := none, k := none, x := none } := by
  unfold mkEcSignature load_signature load_hash ecLoadPubkey
  simp only [bind, Except.bind]
  dsimp only [LoadedPk.generatorOrder, LoadedPk.verifies, LoadedSig.r, LoadedSig.s]
  rw [ecVerifies_of_sign hp hsig rfl]
  rfl

/-! ## Structural lemmas about the candidate loop -/

theorem tryCandidates_fail (self : EcSig) (z rv : Int) (l : List Int)
    (hnone : ∀ cand ∈ l, candidateYields self z rv cand = false) :
    ∃ e, tryCandidates self z rv l = (self, some e) := by
  induction l with
  | nil => exact ⟨.recoveryFailure, rfl⟩
  | cons cand rest ih =>
    have hcy := hnone cand (List.mem_cons_self cand rest)
    unfold candidateYields at hcy
    unfold tryCandidates
    revert hcy
    cases hinv : inverse_mod cand self.n with
    | error e => intro _; exact ⟨e, rfl⟩
    | ok ci =>
      intro hcy
      dsimp only at hcy ⊢
      split
      · exact ⟨.malformedPoint, rfl⟩
      · rename_i hrange
        rw [if_neg hrange] at hcy
        revert hcy
        cases hv : ecVerifies self.curve.n self.curve.xc
            (((self.sig.s * (z * ci % (self.n : Int)) - self.h) % (self.n : Int) * rv %
              (self.n : Int) : Int) : ZMod self.curve.n) self.h self.sig.r self.sig.s with
        | error e => intro _; exact ⟨e, rfl⟩
        | ok b =>
          intro hcy
          cases b with
          | true => exact absurd hcy (by simp)
          | false => exact ih (fun c hc => hnone c (List.mem_cons_of_mem _ hc))

theorem tryCandidates_success (self : EcSig) (z rv : Int) (l : List Int)
    (s' : EcSig) (h : tryCandidates self z rv l = (s', none)) :
    selfVerifiedEc s' := by
  induction l with
  | nil => exact absurd h (by simp [tryCandidates])
  | cons cand rest ih =>
    unfold tryCandidates at h
    revert h
    cases hinv : inverse_mod cand self.n with
    | error e => intro h; exact absurd h (by simp)
    | ok ci =>
      intro h
      dsimp only at h
      split at h
      · exact absurd h (by simp)
      · rename_i hrange
        revert h
        cases hv : ecVerifies self.curve.n self.curve.xc
            (((self.sig.s * (z * ci % (self.n : Int)) - self.h) % (self.n : Int) * rv %
              (self.n : Int) : Int) : ZMod self.curve.n) self.h self.sig.r self.sig.s with
        | error e => intro h; exact absurd h (by simp)
        | ok b =>
          intro h
          cases b with
          | false => exact ih h
          | true =>
            have hs' : s' = { self with
                signingkey := some ((self.sig.s * (z * ci % (self.n : Int)) - self.h) %
                  (self.n : Int) * rv % (self.n : Int)),
                k := some (z * ci % (self.n : Int)),
                x := some ((self.sig.s * (z * ci % (self.n : Int)) - self.h) %
                  (self.n : Int) * rv % (self.n : Int)) } := by
              have hp2 := h
              simp only [Prod.mk.injEq] at hp2
              exact hp2.1.symm
            subst hs'
            exact ⟨_, rfl, hv⟩

theorem tryCandidates_fail_state (self : EcSig) (z rv : Int) (l : List Int)
    (s' : EcSig) (e : Err) (h : tryCandidates self z rv l = (s', some e)) :
    s' = self := by
  induction l with
  | nil =>
    unfold tryCandidates at h
    simp only [Prod.mk.injEq] at h
    exact h.1.symm
  | cons cand rest ih =>
    unfold tryCandidates at h
    revert h
    cases hinv : inverse_mod cand self.n with
    | error e2 =>
      intro h
      simp only [Prod.mk.injEq] at h
      exact h.1.symm
    | ok ci =>
      intro h
      dsimp only at h
      split at h
      · simp only [Prod.mk.injEq] at h
        exact h.1.symm
      · rename_i hrange
        revert h
        cases hv : ecVerifies self.curve.n self.curve.xc
            (((self.sig.s * (z * ci % (self.n : Int)) - self.h) % (self.n : Int) * rv %
              (self.n : Int) : Int) : ZMod self.curve.n) self.h self.sig.r self.sig.s with
        | error e2 =>
          intro h
          simp only [Prod.mk.injEq] at h
          exact h.1.symm
        | ok b =>
          intro h
          cases b with
          | false => exact ih h
          | true =>
            simp only [Prod.mk.injEq] at h
            exact absurd h.2 (by simp)

/-- An ECDSA recovery failure leaves the instance untouched. -/
theorem ecRecover_fail_state (self other s' : EcSig) (e : Err)
    (h : ecRecover self other = (s', some e)) : s' = self := by
  unfold ecRecover at h
  cases hinv : inverse_mod self.sig.r self.n with
  | error e2 =>
    rw [hinv] at h
    simp only [Prod.mk.injEq] at h
    exact h.1.symm
  | ok rv =>
    rw [hinv] at h
    exact tryCandidates_fail_state _ _ _ _ _ _ h

/-- Every ECDSA recovery success is self-verified. -/
theorem ecRecover_success_selfVerified (self other s' : EcSig)
    (h : ecRecover self other = (s', none)) : selfVerifiedEc s' := by
  unfold ecRecover at h
  cases hinv : inverse_mod self.sig.r self.n with
  | error e2 => rw [hinv] at h; exact absurd h (by simp)
  | ok rv =>
    rw [hinv] at h
    exact tryCandidates_success _ _ _ _ _ h

/-- ECDSA recovery reads nothing from `other` beyond `other.sig.s` and
`other.h`: in particular it never compares group orders or `r` values. -/
theorem ecRecover_ignores_other (self o1 o2 : EcSig)
    (hs : o1.sig.s = o2.sig.s) (hh : o1.h = o2.h) :
    ecRecover self o1 = ecRecover self o2 := by
  unfold ecRecover fourCandidates
  rw [hs, hh]

/-! ## Structural lemmas about construction and DSA recovery -/

theorem mkDsaSignature_gate {sigIn : SigInput} {hIn : HashInput} {pk : DsaPubkey}
    {sig : LoadedSig} {h : Int} {rs : Int × Int}
    (h1 : load_signature sigIn = .ok sig) (h2 : load_hash hIn = .ok h)
    (h3 : sig.tuple = .ok rs) (h4 : dsaVerify pk h rs.1 rs.2 = false) :
    mkDsaSignature sigIn hIn pk = .error .validationError := by
  unfold mkDsaSignature
  simp only [bind, Except.bind, h1, h2, h3, h4]
  rfl

theorem mkDsaSignature_ok {sigIn : SigInput} {hIn : HashInput} {pk : DsaPubkey}
    {inst : DsaSig} (h : mkDsaSignature sigIn hIn pk = .ok inst) :
    inst.pk = pk ∧ inst.k = none ∧ inst.x = none ∧
    ∃ r s, inst.sig = .sigParam r s ∧ dsaVerify pk inst.h r s = true := by
  unfold mkDsaSignature at h
  simp only [bind, Except.bind] at h
  revert h
  cases hs : load_signature sigIn with
  | error e => intro h; exact absurd h (by simp)
  | ok sig =>
    intro h
    dsimp only at h
    revert h
    cases hh : load_hash hIn with
    | error e => intro h; exact absurd h (by simp)
    | ok hv =>
      intro h
      dsimp only at h
      revert h
      cases ht : sig.tuple with
      | error e => intro h; exact absurd h (by simp)
      | ok rs =>
        intro h
        dsimp only at h
        revert h
        cases hver : dsaVerify pk hv rs.1 rs.2 with
        | false => intro h; rw [if_neg (by simp)] at h; exact absurd h (by simp)
        | true =>
          intro h
          rw [if_pos rfl] at h
          have hinst := h
          simp only [Except.ok.injEq] at hinst
          subst hinst
          cases sig with
          | rsObj a b => exact absurd ht (by simp [LoadedSig.tuple])
          | sigParam a b =>
            refine ⟨rfl, rfl, rfl, a, b, rfl, ?_⟩
            have hrs : rs = (a, b) := by simpa [LoadedSig.tuple] using ht.symm
            rw [hrs] at hver
            exact hver

theorem mkEcSignature_gate {c : EcCurve} {sigIn : SigInput} {hIn : HashInput}
    {pkIn : EcPubkeyInput} {sig : LoadedSig} {h : Int} {pk : LoadedPk} {n : Nat}
    (h1 : load_signature sigIn = .ok sig) (h2 : load_hash hIn = .ok h)
    (h3 : ecLoadPubkey c pkIn = .ok pk) (h4 : pk.generatorOrder = .ok n)
    (h5 : pk.verifies h sig.r sig.s = .ok false) :
    mkEcSignature c sigIn hIn pkIn = .error .validationError := by
  unfold mkEcSignature
  simp only [bind, Except.bind, h1, h2, h3, h4, h5]
  rfl

theorem mkEcSignature_ok {c : EcCurve} {sigIn : SigInput} {hIn : HashInput}
    {pkIn : EcPubkeyInput} {inst : EcSig}
    (h : mkEcSignature c sigIn hIn pkIn = .ok inst) :
    inst.curve = c ∧ inst.signingkey = none ∧ inst.k = none ∧ inst.x = none ∧
    inst.pk.verifies inst.h inst.sig.r inst.sig.s = .ok true := by
  unfold mkEcSignature at h
  simp only [bind, Except.bind] at h
  revert h
  cases hs : load_signature sigIn with
  | error e => intro h; exact absurd h (by simp)
  | ok sig =>
    intro h
    dsimp only at h
    revert h
    cases hh : load_hash hIn with
    | error e => intro h; exact absurd h (by simp)
    | ok hv =>
      intro h
      dsimp only at h
      revert h
      cases hpk : ecLoadPubkey c pkIn with
      | error e => intro h; exact absurd h (by simp)
      | ok pk =>
        intro h
        dsimp only at h
        revert h
        cases hn : pk.generatorOrder with
        | error e => intro h; exact absurd h (by simp)
        | ok n =>
          intro h
          dsimp only at h
          revert h
          cases hver : pk.verifies hv sig.r sig.s with
          | error e => intro h; exact absurd h (by simp)
          | ok b =>
            cases b with
            | false =>
              intro h
              dsimp only at h
              rw [if_neg (by simp)] at h
              exact absurd h (by simp)
            | true =>
              intro h
              dsimp only at h
              rw [if_pos rfl] at h
              have hinst := h
              simp only [Except.ok.injEq] at hinst
              subst hinst
              exact ⟨rfl, rfl, rfl, rfl, hver⟩

theorem dsaRecover_q_mismatch (self other : DsaSig) (h : self.pk.q ≠ other.pk.q) :
    dsaRecover self other = (self, some .validationError) := by
  unfold dsaRecover
  rw [if_pos h]

theorem dsaRecover_r_mismatch (self other : DsaSig) (hq : self.pk.q = other.pk.q)
    (hr : self.sig.r ≠ other.sig.r) :
    dsaRecover self other = (self, some .validationError) := by
  unfold dsaRecover
  rw [if_neg (by simpa using hq), if_pos hr]

/-- On any DSA recovery failure `self.x` is untouched, and `self.k` is
either untouched (precondition assert or first inverse failing) or has
been assigned with `self.x` still untouched (second inverse failing). -/
theorem dsaRecover_fail_fields (self other s' : DsaSig) (e : Err)
    (h : dsaRecover self other = (s', some e)) :
    s'.x = self.x ∧
      (s'.k = self.k ∨
        ∃ v1, inverse (self.sig.s - other.sig.s) (self.pk.q : Int) = .ok v1 ∧
          inverse self.sig.r (self.pk.q : Int) = .error e ∧
          s'.k = some (((self.h - other.h) * v1) % (self.pk.q : Int))) := by
  unfold dsaRecover at h
  by_cases hq : self.pk.q ≠ other.pk.q
  · rw [if_pos hq] at h
    simp only [Prod.mk.injEq] at h
    rw [← h.1]
    exact ⟨rfl, Or.inl rfl⟩
  · rw [if_neg hq] at h
    by_cases hr : self.sig.r ≠ other.sig.r
    · rw [if_pos hr] at h
      simp only [Prod.mk.injEq] at h
      rw [← h.1]
      exact ⟨rfl, Or.inl rfl⟩
    · rw [if_neg hr] at h
      revert h
      cases hi1 : inverse (self.sig.s - other.sig.s) (self.pk.q : Int) with
      | error e1 =>
        intro h
        simp only [Prod.mk.injEq] at h
        rw [← h.1]
        exact ⟨rfl, Or.inl rfl⟩
      | ok v1 =>
        intro h
        dsimp only at h
        revert h
        cases hi2 : inverse self.sig.r (self.pk.q : Int) with
        | error e2 =>
          intro h
          simp only [Prod.mk.injEq] at h
          obtain ⟨hs', he⟩ := h
          rw [← hs']
          refine ⟨rfl, Or.inr ⟨v1, rfl, ?_, rfl⟩⟩
          have he2 : e2 = e := by simpa using he
          rw [he2]
        | ok v2 =>
          intro h
          simp only [Prod.mk.injEq] at h
          exact absurd h.2 (by simp)

/-- A DSA recovery success populates both fields, together. -/
theorem dsaRecover_success_fields (self other s' : DsaSig)
    (h : dsaRecover self other = (s', none)) :
    ∃ a b, s' = { self with k := some a, x := some b } := by
  unfold dsaRecover at h
  by_cases hq : self.pk.q ≠ other.pk.q
  · rw [if_pos hq] at h
    simp only [Prod.mk.injEq] at h
    exact absurd h.2 (by simp)
  · rw [if_neg hq] at h
    by_cases hr : self.sig.r ≠ other.sig.r
    · rw [if_pos hr] at h
      simp only [Prod.mk.injEq] at h
      exact absurd h.2 (by simp)
    · rw [if_neg hr] at h
      revert h
      cases hi1 : inverse (self.sig.s - other.sig.s) (self.pk.q : Int) with
      | error e1 => intro h; exact absurd h (by simp)
      | ok v1 =>
        intro h
        dsimp only at h
        revert h
        cases hi2 : inverse self.sig.r (self.pk.q : Int) with
        | error e2 => intro h; exact absurd h (by simp)
        | ok v2 =>
          intro h
          simp only [Prod.mk.injEq] at h
          exact ⟨_, _, h.1.symm⟩

/-! ## Concrete scenarios

`dsaToyPk` is the spec's own end-to-end scenario (section 8): toy DSA
group `p = 23, q = 11, g = 4`, secret `x = 7` (`y = g^x mod p = 8`),
nonce `k = 3`, digests `h1 = 11` and `h2 = 13`; the two signatures are
`(7, 9)` and `(7, 6)`.

`c6pk` is a crafted caller-supplied DSA key with composite subgroup
order `q = 9` (`p = 19, g = 4, y = 4`); signatures `(6, 1)` on digest
`1` and `(6, 2)` on digest `8` both verify, but `gcd(r, q) = 3`.

`c3curve` is a crafted 7-element curve (the spec itself notes such
counterexamples are "constructible via crafted curve parameters in a
test", section 8); `cW` is a second small curve used for honest signing
witnesses. -/

def dsaToyPk : DsaPubkey := ⟨23, 11, 4, 8⟩

def c6pk : DsaPubkey := ⟨19, 9, 4, 4⟩

def c6self : DsaSig := { pk := c6pk, sig := .sigParam 6 2, h := 8, k := none, x := none }

def c6other : DsaSig := { pk := c6pk, sig := .sigParam 6 1, h := 1, k := none, x := none }

def c3curve : EcCurve :=
  ⟨7, fun t => if t = 2 ∨ t = 6 then 5 else 0, fun _ => .error .typeError⟩

def c3pk : EcPoint := ⟨7, c3curve.xc, 1⟩

def c3e1 : EcSig :=
  { curve := c3curve, sig := .sigParam 5 3, h := 1, pk := .point c3pk, n := 7,
    signingkey := none, k := none, x := none }

def c3e2 : EcSig :=
  { curve := c3curve, sig := .sigParam 5 4, h := 5, pk := .point c3pk, n := 7,
    signingkey := none, k := none, x := none }

/-- Same as `c3e2` except for a different `r` — used to exhibit the
missing ECDSA compatibility check. -/
def c5other : EcSig :=
  { curve := c3curve, sig := .sigParam 4 4, h := 5, pk := .point c3pk, n := 7,
    signingkey := none, k := none, x := none }

def cW : EcCurve := ⟨7, fun t => t.val + 1, fun _ => .error .typeError⟩

/-! ## Claims -/

/-- C7: the claim states that for every pair of integers `(a, n)` with
`n > 1`, `inverse(a, n)` returns the modular inverse when
`gcd(a, n) = 1` and fails with `DomainError` exactly when
`gcd(a, n) ≠ 1`.  The code violates this: for a *negative* first
argument (which the DSA recovery path passes whenever `s1 < s2`), the
recursion of `extended_gcd` keeps the sign of its first argument and
bottoms out at a negative gcd value, so the `gcd != 1` guard fires even
for coprime inputs.  At `a = -3, n = 7`: `gcd(-3, 7) = 1`, yet
`extended_gcd` computes `(-1, -2, -1)` and `inverse` raises
`ValueError` — contradicting the function's own docstring ("Raises
ValueError: If a and n are not coprime").  For positive coprime inputs
the function is correct, as the sample `inverse 3 11 = 4` shows. -/
theorem claim_C7_inverse_negative_coprime_fails :
    Int.gcd (-3) 7 = 1 ∧
    extended_gcd (-3) 7 = (-1, -2, -1) ∧
    inverse (-3) 7 = .error .domainError ∧
    inverse 3 11 = .ok 4 ∧ (3 * 4) % 11 = 1 := by
  refine ⟨by decide, ?_, ?_, ?_, by decide⟩
  · simp [extended_gcd]
  · simp [inverse, extended_gcd]
  · simp [inverse, extended_gcd]

/-- C8: the claim states that integer digests pass through, `bytes` and
`str` digests are converted via big-endian interpretation, and any other
type fails with `ValidationError`.  The code violates the `str` part: a
`str` digest enters the `bytes_to_long` branch, which on Python 3 fails
with `TypeError` (it cannot concatenate/unpack a `str`), so no
conversion is performed.  The `int`, `bytes` and other-type parts
behave as claimed (`"abc"` as bytes is `0x616263 = 6382179`). -/
theorem claim_C8_digest_normalization_str_fails :
    load_hash (.int 42) = .ok 42 ∧
    load_hash (.bytes [97, 98, 99]) = .ok 6382179 ∧
    load_hash (.str [97, 98, 99]) = .error .typeError ∧
    load_hash .other = .error .validationError ∧
    Err.typeError ≠ Err.validationError := by
  decide

/-- C9 counterexample: a 3-tuple `(1, 2, 3)` satisfies neither accepted
shape (it is not a 2-tuple and exposes no `r`/`s` attributes), so the
claim requires `ValidationError`; the code instead reaches
`SignatureParameter(*sig)` and dies with `TypeError` (three arguments to
a two-parameter constructor). -/
theorem claim_C9_counterexample :
    load_signature (.tup [1, 2, 3]) = .error .typeError ∧
    Err.typeError ≠ Err.validationError := by
  decide

/-- C9 amended: 2-tuples are wrapped into `SignatureParameter`; an
object exposing `r` and `s` is returned *unchanged* (not normalized — a
`SignatureParameter` input keeps its `tuple` property, any other
`(r, s)` object lacks it and later breaks the DSA gate's
`self.sig.tuple` access with `AttributeError`); tuples of any other
arity fail with `TypeError` from `SignatureParameter(*sig)`; any other
value fails with `ValidationError`. -/
theorem claim_C9_amended (r s : Int) (xs : List Int) (hxs : xs.length ≠ 2) :
    load_signature (.sigParam r s) = .ok (.sigParam r s) ∧
    load_signature (.rsObj r s) = .ok (.rsObj r s) ∧
    load_signature (.tup [r, s]) = .ok (.sigParam r s) ∧
    load_signature (.tup xs) = .error .typeError ∧
    load_signature .other = .error .validationError ∧
    LoadedSig.tuple (.rsObj r s) = .error .attributeError := by
  refine ⟨rfl, rfl, rfl, ?_, rfl, rfl⟩
  match xs, hxs with
  | [], _ => rfl
  | [a], _ => rfl
  | a :: b :: c :: t, _ => rfl
  | [a, b], hxs => exact absurd rfl hxs

/-- C9 amended witness at concrete inputs. -/
theorem claim_C9_amended_witness :
    load_signature (.tup [1, 2, 3]) = .error .typeError ∧
    load_signature (.tup [10, 20]) = .ok (.sigParam 10 20) :=
  ⟨(claim_C9_amended 0 0 [1, 2, 3] (by decide)).2.2.2.1,
   (claim_C9_amended 10 20 [] (by decide)).2.2.1⟩

/-- C10: `EcDsaSignature._load_pubkey` passes any object that is neither
an `ecdsa` `Public_key` nor `str`/`bytes` through unchanged, raising
nothing, and construction then proceeds to use the unvalidated object:
with a duck-typed `generator.order()` present, the gate consults the
object's own `verifies` — accepting the instance when it returns true
and failing the gate when it returns false. -/
theorem claim_C10_pubkey_passthrough :
    (∀ (c : EcCurve) (o : RawPk), ecLoadPubkey c (.raw o) = .ok (.raw o)) ∧
    (∀ (c : EcCurve) (o : RawPk) (sigIn : SigInput) (hIn : HashInput)
       (sig : LoadedSig) (h : Int) (n : Nat),
      load_signature sigIn = .ok sig → load_hash hIn = .ok h →
      o.order = some n →
      (o.verif h sig.r sig.s = .ok false →
        mkEcSignature c sigIn hIn (.raw o) = .error .validationError) ∧
      (o.verif h sig.r sig.s = .ok true →
        ∃ inst, mkEcSignature c sigIn hIn (.raw o) = .ok inst ∧ inst.pk = .raw o)) := by
  refine ⟨fun c o => rfl, fun c o sigIn hIn sig h n h1 h2 h3 => ⟨fun hv => ?_, fun hv => ?_⟩⟩
  · have h4 : (LoadedPk.raw o).generatorOrder = .ok n := by
      simp [LoadedPk.generatorOrder, h3]
    exact mkEcSignature_gate h1 h2 rfl h4 hv
  · refine ⟨{ curve := c, sig := sig, h := h, pk := .raw o, n := n,
              signingkey := none, k := none, x := none }, ?_, rfl⟩
    unfold mkEcSignature
    simp only [bind, Except.bind, h1, h2]
    dsimp only [ecLoadPubkey, LoadedPk.generatorOrder, LoadedPk.verifies]
    rw [h3, hv]
    rfl

/-- C10 witness: a raw object carrying a 7-element order and an
always-true verifier is passed through and constructed. -/
theorem claim_C10_pubkey_passthrough_witness :
    ecLoadPubkey cW (.raw ⟨some 7, fun _ _ _ => .ok true⟩) =
      .ok (.raw ⟨some 7, fun _ _ _ => .ok true⟩) ∧
    ∃ inst, mkEcSignature cW (.tup [1, 2]) (.int 3)
        (.raw ⟨some 7, fun _ _ _ => .ok true⟩) = .ok inst ∧
      inst.pk = .raw ⟨some 7, fun _ _ _ => .ok true⟩ :=
  ⟨claim_C10_pubkey_passthrough.1 cW _,
   ((claim_C10_pubkey_passthrough.2 cW ⟨some 7, fun _ _ _ => .ok true⟩
      (.tup [1, 2]) (.int 3) (.sigParam 1 2) 3 7 rfl rfl rfl).2 rfl)⟩

theorem tryCandidates_success_shape (self : EcSig) (z rv : Int) (l : List Int)
    (s' : EcSig) (h : tryCandidates self z rv l = (s', none)) :
    ∃ sk kv, s' = { self with signingkey := some sk, k := some kv, x := some sk } := by
  induction l with
  | nil => exact absurd h (by simp [tryCandidates])
  | cons cand rest ih =>
    unfold tryCandidates at h
    revert h
    cases hinv : inverse_mod cand self.n with
    | error e => intro h; exact absurd h (by simp)
    | ok ci =>
      intro h
      dsimp only at h
      split at h
      · exact absurd h (by simp)
      · rename_i hrange
        revert h
        cases hv : ecVerifies self.curve.n self.curve.xc
            (((self.sig.s * (z * ci % (self.n : Int)) - self.h) % (self.n : Int) * rv %
              (self.n : Int) : Int) : ZMod self.curve.n) self.h self.sig.r self.sig.s with
        | error e => intro h; exact absurd h (by simp)
        | ok b =>
          intro h
          cases b with
          | false => exact ih h
          | true =>
            have hp2 := h
            simp only [Prod.mk.injEq] at hp2
            exact ⟨_, _, hp2.1.symm⟩

theorem ecRecover_success_shape (self other s' : EcSig)
    (h : ecRecover self other = (s', none)) :
    ∃ sk kv, s' = { self with signingkey := some sk, k := some kv, x := some sk } := by
  unfold ecRecover at h
  revert h
  cases hinv : inverse_mod self.sig.r self.n with
  | error e => intro h; exact absurd h (by simp)
  | ok rv => intro h; exact tryCandidates_success_shape _ _ _ _ _ h

/-- C4: the verification gate at construction.  For both variants: when
the bound public key's verification predicate rejects the
`(digest, signature)` pair, construction fails with `ValidationError`
and never produces an instance; and every successfully constructed
instance carries a signature that verifies against its bound public
key. -/
theorem claim_C4_verification_gate :
    (∀ (sigIn : SigInput) (hIn : HashInput) (pk : DsaPubkey) (sig : LoadedSig)
       (h : Int) (rs : Int × Int),
      load_signature sigIn = .ok sig → load_hash hIn = .ok h →
      sig.tuple = .ok rs → dsaVerify pk h rs.1 rs.2 = false →
      mkDsaSignature sigIn hIn pk = .error .validationError) ∧
    (∀ (sigIn : SigInput) (hIn : HashInput) (pk : DsaPubkey) (inst : DsaSig),
      mkDsaSignature sigIn hIn pk = .ok inst →
      ∃ r s, inst.sig = .sigParam r s ∧ dsaVerify inst.pk inst.h r s = true) ∧
    (∀ (c : EcCurve) (sigIn : SigInput) (hIn : HashInput) (pkIn : EcPubkeyInput)
       (sig : LoadedSig) (h : Int) (pk : LoadedPk) (n : Nat),
      load_signature sigIn = .ok sig → load_hash hIn = .ok h →
      ecLoadPubkey c pkIn = .ok pk → pk.generatorOrder = .ok n →
      pk.verifies h sig.r sig.s = .ok false →
      mkEcSignature c sigIn hIn pkIn = .error .validationError) ∧
    (∀ (c : EcCurve) (sigIn : SigInput) (hIn : HashInput) (pkIn : EcPubkeyInput)
       (inst : EcSig),
      mkEcSignature c sigIn hIn pkIn = .ok inst →
      inst.pk.verifies inst.h inst.sig.r inst.sig.s = .ok true) := by
  refine ⟨fun sigIn hIn pk sig h rs h1 h2 h3 h4 => mkDsaSignature_gate h1 h2 h3 h4,
    fun sigIn hIn pk inst h => ?_,
    fun c sigIn hIn pkIn sig h pk n h1 h2 h3 h4 h5 => mkEcSignature_gate h1 h2 h3 h4 h5,
    fun c sigIn hIn pkIn inst h => (mkEcSignature_ok h).2.2.2.2⟩
  obtain ⟨hpk, -, -, r, s, hsig, hver⟩ := mkDsaSignature_ok h
  exact ⟨r, s, hsig, by rw [hpk]; exact hver⟩

/-- C4 witness: a cryptographically non-matching pair is rejected at
construction in both variants. -/
theorem claim_C4_verification_gate_witness :
    mkDsaSignature (.tup [7, 9]) (.int 12) dsaToyPk = .error .validationError ∧
    mkEcSignature c3curve (.tup [5, 3]) (.int 3) (.publicKey c3pk) =
      .error .validationError :=
  ⟨claim_C4_verification_gate.1 (.tup [7, 9]) (.int 12) dsaToyPk (.sigParam 7 9) 12 (7, 9)
      rfl rfl rfl (by decide),
   claim_C4_verification_gate.2.2.1 c3curve (.tup [5, 3]) (.int 3) (.publicKey c3pk)
      (.sigParam 5 3) 3 (.point c3pk) 7 rfl rfl rfl rfl (by decide)⟩

/-- C5 counterexample: the ECDSA variant performs *no* compatibility
check.  `c3e1` and `c5other` carry different `r` values (5 vs. 4), yet
`recover_nonce_reuse` does not fail with `ValidationError` before any
arithmetic — it runs the whole candidate search (and here ends in the
modular-inverse `DomainError` of the second candidate). -/
theorem claim_C5_counterexample :
    c3e1.sig.r = 5 ∧ c5other.sig.r = 4 ∧ c3e1.n = c5other.n ∧
    ecRecover c3e1 c5other = (c3e1, some .domainError) ∧
    Err.domainError ≠ Err.validationError := by
  exact ⟨rfl, rfl, rfl, rfl, by decide⟩

/-- C5 amended: only the DSA variant requires identical group order `q`
and identical `r`, failing with `ValidationError` (the two `assert`s)
before any recovery arithmetic; the ECDSA variant performs no
compatibility check at all — its result depends on `other` only through
`other.sig.s` and `other.h`, so mismatched group parameters or `r` are
never detected. -/
theorem claim_C5_amended :
    (∀ self other : DsaSig, self.pk.q ≠ other.pk.q →
      dsaRecover self other = (self, some .validationError)) ∧
    (∀ self other : DsaSig, self.pk.q = other.pk.q → self.sig.r ≠ other.sig.r →
      dsaRecover self other = (self, some .validationError)) ∧
    (∀ self o1 o2 : EcSig, o1.sig.s = o2.sig.s → o1.h = o2.h →
      ecRecover self o1 = ecRecover self o2) :=
  ⟨dsaRecover_q_mismatch, dsaRecover_r_mismatch, ecRecover_ignores_other⟩

/-- C5 amended witness at concrete instances. -/
theorem claim_C5_amended_witness :
    dsaRecover c6self { c6other with pk := dsaToyPk } =
      (c6self, some .validationError) ∧
    dsaRecover c6self { c6other with sig := .sigParam 7 1 } =
      (c6self, some .validationError) ∧
    ecRecover c3e1 c3e2 = ecRecover c3e1 c5other :=
  ⟨claim_C5_amended.1 _ _ (by decide),
   claim_C5_amended.2.1 _ _ (by decide) (by decide),
   claim_C5_amended.2.2 c3e1 c3e2 c5other rfl rfl⟩

/-- C6 counterexample: recovery results are *not* populated atomically
in the DSA variant.  With the crafted composite-order key `c6pk`
(`q = 9`, `r = 6`, `gcd(r, q) = 3`), both instances pass the
construction gate, the first modular inverse succeeds and `self.k` is
assigned `7` — and then `inverse(r, q)` raises, leaving the instance
with `recovered_nonce` set and `recovered_secret` still `None`. -/
theorem claim_C6_counterexample :
    mkDsaSignature (.tup [6, 2]) (.int 8) c6pk = .ok c6self ∧
    mkDsaSignature (.tup [6, 1]) (.int 1) c6pk = .ok c6other ∧
    c6self.k = none ∧ c6self.x = none ∧
    dsaRecover c6self c6other =
      ({ pk := c6pk, sig := .sigParam 6 2, h := 8, k := some 7, x := none },
       some .domainError) := by
  refine ⟨by decide, by decide, rfl, rfl, ?_⟩
  have hA : inverse (1 : Int) ((9 : Nat) : Int) = .ok 1 := by
    simp [inverse, extended_gcd]
  have hB : inverse (6 : Int) ((9 : Nat) : Int) = .error .domainError := by
    simp [inverse, extended_gcd]
  have hsub : (2 : Int) - 1 = 1 := by norm_num
  unfold dsaRecover
  dsimp only [c6self, c6other, c6pk, LoadedSig.r, LoadedSig.s]
  rw [if_neg (by decide), if_neg (by decide), hsub, hA]
  dsimp only
  rw [hB]
  norm_num

/-- C6 amended: both fields are `None` from construction on; the ECDSA
variant modifies nothing on failure and sets `signingkey`, `k`, `x`
together on success; the DSA variant sets both fields on success and
never modifies `x` on failure, but when the *second* modular inverse
(`inverse(r, q)`) fails, `k` has already been assigned and stays
assigned — atomicity fails exactly there. -/
theorem claim_C6_amended :
    (∀ (sigIn : SigInput) (hIn : HashInput) (pk : DsaPubkey) (inst : DsaSig),
      mkDsaSignature sigIn hIn pk = .ok inst → inst.k = none ∧ inst.x = none) ∧
    (∀ (c : EcCurve) (sigIn : SigInput) (hIn : HashInput) (pkIn : EcPubkeyInput)
       (inst : EcSig),
      mkEcSignature c sigIn hIn pkIn = .ok inst → inst.k = none ∧ inst.x = none) ∧
    (∀ (self other s' : EcSig) (e : Err),
      ecRecover self other = (s', some e) → s' = self) ∧
    (∀ self other s' : EcSig, ecRecover self other = (s', none) →
      ∃ sk kv, s' = { self with signingkey := some sk, k := some kv, x := some sk }) ∧
    (∀ (self other s' : DsaSig) (e : Err),
      dsaRecover self other = (s', some e) →
      s'.x = self.x ∧
        (s'.k = self.k ∨
          ∃ v1, inverse (self.sig.s - other.sig.s) (self.pk.q : Int) = .ok v1 ∧
            inverse self.sig.r (self.pk.q : Int) = .error e ∧
            s'.k = some (((self.h - other.h) * v1) % (self.pk.q : Int)))) ∧
    (∀ self other s' : DsaSig, dsaRecover self other = (s', none) →
      ∃ a b, s' = { self with k := some a, x := some b }) := by
  refine ⟨fun sigIn hIn pk inst h => ?_, fun c sigIn hIn pkIn inst h => ?_,
    ecRecover_fail_state, ecRecover_success_shape,
    dsaRecover_fail_fields, dsaRecover_success_fields⟩
  · obtain ⟨-, hk, hx, -⟩ := mkDsaSignature_ok h
    exact ⟨hk, hx⟩
  · obtain ⟨-, -, hk, hx, -⟩ := mkEcSignature_ok h
    exact ⟨hk, hx⟩

/-- C6 amended witness at concrete instances. -/
theorem claim_C6_amended_witness :
    c6self.k = none ∧ c6self.x = none ∧
    ({ pk := c6pk, sig := .sigParam 6 2, h := 8, k := some 7, x := none } : DsaSig).x
      = c6self.x ∧
    c3e1 = c3e1 := by
  have hmk : mkDsaSignature (.tup [6, 2]) (.int 8) c6pk = .ok c6self := by decide
  have hone := claim_C6_amended.1 (.tup [6, 2]) (.int 8) c6pk c6self hmk
  have hrec : dsaRecover c6self c6other =
      ({ pk := c6pk, sig := .sigParam 6 2, h := 8, k := some 7, x := none },
       some .domainError) := by
    have hA : inverse (1 : Int) ((9 : Nat) : Int) = .ok 1 := by
      simp [inverse, extended_gcd]
    have hB : inverse (6 : Int) ((9 : Nat) : Int) = .error .domainError := by
      simp [inverse, extended_gcd]
    have hsub : (2 : Int) - 1 = 1 := by norm_num
    unfold dsaRecover
    dsimp only [c6self, c6other, c6pk, LoadedSig.r, LoadedSig.s]
    rw [if_neg (by decide), if_neg (by decide), hsub, hA]
    dsimp only
    rw [hB]
    norm_num
  have htwo := (claim_C6_amended.2.2.2.2.1 c6self c6other _ _ hrec).1
  have hthree := claim_C6_amended.2.2.1 c3e1 c5other c3e1 .domainError rfl
  exact ⟨hone.1, hone.2, htwo, hthree⟩

/-- C3 counterexample: a constructible pair (both instances pass the
verification gate) on which *no* candidate yields a self-verifying
trial key, yet the exhausted search does not fail with
`RecoveryFailure`: the second candidate is `s1 + s2 = 3 + 4 = 7 ≡ 0
(mod 7)`, whose modular inverse raises `DomainError` first. -/
theorem claim_C3_counterexample :
    mkEcSignature c3curve (.tup [5, 3]) (.int 1) (.publicKey c3pk) = .ok c3e1 ∧
    mkEcSignature c3curve (.tup [5, 4]) (.int 5) (.publicKey c3pk) = .ok c3e2 ∧
    (∀ rv, inverse_mod c3e1.sig.r c3e1.n = .ok rv →
      ∀ cand ∈ fourCandidates c3e1 c3e2,
        candidateYields c3e1 (c3e1.h - c3e2.h) rv cand = false) ∧
    ecRecover c3e1 c3e2 = (c3e1, some .domainError) ∧
    Err.domainError ≠ Err.recoveryFailure := by
  refine ⟨rfl, rfl, ?_, rfl, by decide⟩
  intro rv hrv
  have h3 : inverse_mod c3e1.sig.r c3e1.n = .ok 3 := by decide
  rw [h3] at hrv
  have hrv3 : (3 : Int) = rv := by simpa using hrv
  subst hrv3
  decide

/-- C3 amended: when none of the four candidates yields a trial key
whose derived public key verifies `(h1, (r, s1))`,
`recover_nonce_reuse` always fails explicitly — with `RecoveryFailure`
after an exhausted search, or with the error of a degenerate step (a
non-invertible candidate or `r`, an out-of-range trial exponent, a
trial verification crash) — leaving the instance unmodified and never
returning a silently wrong key. -/
theorem claim_C3_amended (self other : EcSig)
    (hnone : ∀ rv, inverse_mod self.sig.r self.n = .ok rv →
      ∀ cand ∈ fourCandidates self other,
        candidateYields self (self.h - other.h) rv cand = false) :
    ∃ e, ecRecover self other = (self, some e) := by
  unfold ecRecover
  cases hinv : inverse_mod self.sig.r self.n with
  | error e => exact ⟨e, rfl⟩
  | ok rv => exact tryCandidates_fail self _ rv _ (hnone rv hinv)

/-- C3 amended witness at the concrete crafted pair. -/
theorem claim_C3_amended_witness :
    ∃ e, ecRecover c3e1 c3e2 = (c3e1, some e) :=
  claim_C3_amended c3e1 c3e2 (by
    intro rv hrv
    have h3 : inverse_mod c3e1.sig.r c3e1.n = .ok 3 := by decide
    rw [h3] at hrv
    have hrv3 : (3 : Int) = rv := by simpa using hrv
    subst hrv3
    decide)

def dsaToySelf : DsaSig :=
  { pk := dsaToyPk, sig := .sigParam 7 9, h := 11, k := none, x := none }

def dsaToyOther : DsaSig :=
  { pk := dsaToyPk, sig := .sigParam 7 6, h := 13, k := none, x := none }

/-- C2: the claim states that for *every* pair of `DsaSignature`
instances built from same-nonce signatures, `recover_nonce_reuse`
returns the original `k` and `x`.  The code violates this on the spec's
own end-to-end scenario (`x = 7, k = 3, h1 = 11, h2 = 13`, toy group
`p = 23, q = 11, g = 4, y = 4^7 mod 23 = 8`): called as
`sig(h1).recover_nonce_reuse(sig(h2))` it correctly returns
`k = 3, x = 7`, but called with the pair swapped —
`sig(h2).recover_nonce_reuse(sig(h1))` — the first modular inverse
receives `s1 - s2 = 6 - 9 = -3 < 0` and the buggy `inverse` (cf. C7)
raises `ValueError` even though `gcd(-3, 11) = 1`, so a perfectly valid
nonce-reuse pair fails instead of recovering the key. -/
theorem claim_C2_dsa_recovery_failing_input :
    dsaSign 23 11 4 7 3 11 = .ok (7, 9) ∧
    dsaSign 23 11 4 7 3 13 = .ok (7, 6) ∧
    (4 ^ 7 % 23 : Nat) = 8 ∧
    mkDsaSignature (.tup [7, 9]) (.int 11) dsaToyPk = .ok dsaToySelf ∧
    mkDsaSignature (.tup [7, 6]) (.int 13) dsaToyPk = .ok dsaToyOther ∧
    dsaRecover dsaToySelf dsaToyOther =
      ({ pk := dsaToyPk, sig := .sigParam 7 9, h := 11, k := some 3, x := some 7 },
       none) ∧
    dsaRecover dsaToyOther dsaToySelf = (dsaToyOther, some .domainError) ∧
    Int.gcd ((6 : Int) - 9) 11 = 1 := by
  refine ⟨by decide, by decide, by decide, by decide, by decide, ?_, ?_, by decide⟩
  · have hA : inverse (3 : Int) ((11 : Nat) : Int) = .ok 4 := by
      simp [inverse, extended_gcd]
    have hB : inverse (7 : Int) ((11 : Nat) : Int) = .ok 8 := by
      simp [inverse, extended_gcd]
    have hsub : (9 : Int) - 6 = 3 := by norm_num
    unfold dsaRecover
    dsimp only [dsaToySelf, dsaToyOther, dsaToyPk, LoadedSig.r, LoadedSig.s]
    rw [if_neg (by decide), if_neg (by decide), hsub, hA]
    dsimp only
    rw [hB]
    norm_num
  · have hC : inverse (-3 : Int) ((11 : Nat) : Int) = .error .domainError := by
      simp [inverse, extended_gcd]
    have hsub : (6 : Int) - 9 = -3 := by norm_num
    unfold dsaRecover
    dsimp only [dsaToySelf, dsaToyOther, dsaToyPk, LoadedSig.r, LoadedSig.s]
    rw [if_neg (by decide), if_neg (by decide), hsub, hC]

/-- C1: ECDSA nonce-reuse recovery with self-verification.  For every
pair of `EcDsaSignature` instances built from two signatures produced
under the same secret `d` and nonce `k` on the same curve (hence equal
`r`), the candidate loop — iterating `s1-s2, s1+s2, -s1-s2, -s1+s2` in
source order — succeeds at its first verifying candidate and stores
exactly the original nonce and secret
(`recovered_nonce = k, recovered_secret = d`); moreover *every* success
it ever returns, on any input and any of the four branches, satisfies
the self-verification predicate.  The digest hypothesis
`h1 ≢ h2 (mod n)` marks the non-degenerate case in which a verifying
candidate exists at all. -/
theorem claim_C1_ecdsa_recovery_selfverified
    (c : EcCurve) (hp : c.n.Prime) (d k : Nat) (h1 h2 r r2 s1 s2 : Int)
    (hd1 : 1 ≤ d) (hd2 : d < c.n) (hk2 : k < c.n)
    (hsig1 : ecdsaSign c d k h1 = .ok (r, s1))
    (hsig2 : ecdsaSign c d k h2 = .ok (r2, s2))
    (hh : (h1 - h2) % (c.n : Int) ≠ 0) :
    r2 = r ∧
    (∃ e1 e2 : EcSig,
      mkEcSignature c (.tup [r, s1]) (.int h1)
        (.publicKey ⟨c.n, c.xc, (d : ZMod c.n)⟩) = .ok e1 ∧
      mkEcSignature c (.tup [r2, s2]) (.int h2)
        (.publicKey ⟨c.n, c.xc, (d : ZMod c.n)⟩) = .ok e2 ∧
      e1.h = h1 ∧ e1.sig = .sigParam r s1 ∧
      ecRecover e1 e2 =
        ({ e1 with signingkey := some (d : Int), k := some (k : Int),
                   x := some (d : Int) }, none)) ∧
    (∀ a b a' : EcSig, ecRecover a b = (a', none) → selfVerifiedEc a') := by
  have hr2 : r2 = r := by
    obtain ⟨-, hra, -, -, -⟩ := ecdsaSign_ok hsig1
    obtain ⟨-, hrb, -, -, -⟩ := ecdsaSign_ok hsig2
    rw [hra, hrb]
  subst hr2
  refine ⟨rfl, ⟨_, _, mkEcSignature_honest hp hsig1, mkEcSignature_honest hp hsig2,
    rfl, rfl, ?_⟩, ecRecover_success_selfVerified⟩
  exact ecRecover_honest hp hd1 hd2 hk2 hsig1 hsig2 hh
    { curve := c, sig := .sigParam r2 s2, h := h2,
      pk := .point ⟨c.n, c.xc, (d : ZMod c.n)⟩, n := c.n,
      signingkey := none, k := none, x := none } rfl rfl _ rfl

/-- C1 witness: the 7-element curve `cW` with `d = 2, k = 3`, digests
`1` and `2`; signing yields `(4, 3)` and `(4, 1)`, and recovery returns
the original `k = 3` and `d = 2`. -/
theorem claim_C1_ecdsa_recovery_selfverified_witness :
    ∃ e1 e2 : EcSig,
      mkEcSignature cW (.tup [4, 3]) (.int 1)
        (.publicKey ⟨cW.n, cW.xc, ((2 : Nat) : ZMod cW.n)⟩) = .ok e1 ∧
      mkEcSignature cW (.tup [4, 1]) (.int 2)
        (.publicKey ⟨cW.n, cW.xc, ((2 : Nat) : ZMod cW.n)⟩) = .ok e2 ∧
      e1.h = 1 ∧ e1.sig = .sigParam 4 3 ∧
      ecRecover e1 e2 =
        ({ e1 with signingkey := some ((2 : Nat) : Int), k := some ((3 : Nat) : Int),
                   x := some ((2 : Nat) : Int) }, none) :=
  (claim_C1_ecdsa_recovery_selfverified cW (by norm_num [cW]) 2 3 1 2 4 4 3 1
    (by decide) (by decide) (by decide) (by decide) (by decide) (by decide)).2.1
